import Mathlib

/-!
Verification of the filename classification-and-matching engine of
PyWPMedia (src/PyWPMedia.py).

The engine is embedded shallowly: filenames are `List Char`, every
Python function becomes a total Lean function mirroring the source,
and the GUI / filesystem orchestration is stripped to the pure
decision logic it wraps.

Modelling granularity and conventions:
* Characters use ASCII case and digit semantics (`Char.toLower`,
  `Char.isDigit`); this matches the source's behaviour on the ASCII
  filenames the program is written for.
* `os.path.splitext` is modelled by `splitextRoot` (the root part) for
  a path without separators, including Python's rule that a basename
  consisting only of leading dots has no extension.
* `re.findall(r'-(\d+)x(\d+)', s)` and `re.sub(r'-\d+x\d+', '', s)`
  are modelled by `findDims` and `dimSub`: a left-to-right scan that,
  at each position, greedily matches `'-' digits 'x' digits` and
  continues after the match (Python's non-overlapping scan; the
  character classes make greedy matching backtrack-free).  The scan
  recurses on a fuel argument bounded by the list length so that the
  definitions reduce by structural recursion.
* `re.sub(r'-(scaled|rotated)$', '', s, flags=re.IGNORECASE)` is
  modelled by `scaledStrip`, including Python's semantics of `$`
  matching either at the end of the string or just before a final
  newline character.
* `str.rstrip('-')` is modelled by `rstripHyphen`, a structural
  recursion removing the maximal trailing run of hyphens.
* The folder reconciliation (`delete_thumbnails_in_folder`) and the
  preview path (`MediaCleanerGUI.preview_cleanup`) are modelled as
  pure decision functions `folderDecisions` / `previewDecisions` over
  a folder's file list; the filesystem walk, the `normalize_filenames`
  renaming pre-pass and the actual delete calls are I/O-side
  orchestration outside the decision contract.
-/

namespace PyWPMedia

/-- Index of the last occurrence of `c` in `l`, if any. -/
def lastIdxOf (c : Char) : List Char → Option Nat
  | [] => none
  | a :: t =>
    match lastIdxOf c t with
    | some i => some (i + 1)
    | none => if a = c then some 0 else none

/-- Root part of `os.path.splitext` for a filename without path
separators: cut at the last dot unless every character before that
dot is itself a dot. -/
def splitextRoot (p : List Char) : List Char :=
  match lastIdxOf '.' p with
  | none => p
  | some i => if (p.take i).any (fun a => !(a == '.')) then p.take i else p

/-- `name.lower().endswith(tuple_of_suffixes)`. -/
def lowerEndsWithAny (name : List Char) (sufs : List (List Char)) : Bool :=
  sufs.any (fun s => s.isSuffixOf (name.map Char.toLower))

/-- The extensions checked by the double-extension handling in
`is_thumbnail` and `get_base_name` (source lines 24 and 56). -/
def double_extensions : List (List Char) :=
  [".jpg".toList, ".jpeg".toList, ".png".toList]

/-- `MAIN_EXTENSIONS` (source line 9). -/
def MAIN_EXTENSIONS : List (List Char) :=
  [".jpg".toList, ".jpeg".toList, ".png".toList, ".webp".toList,
   ".gif".toList, ".bmp".toList, ".tiff".toList, ".tif".toList]

/-- Shared extension stripping of `is_thumbnail` / `get_base_name`
(source lines 21-25 and 53-57): strip the primary extension, then a
secondary `.jpg`/`.jpeg`/`.png` extension. -/
def strip_extensions (filename : List Char) : List Char :=
  let name := splitextRoot filename
  if lowerEndsWithAny name double_extensions then splitextRoot name else name

/-- Value of a decimal digit string (`int` applied to a `\d+` group). -/
def digitsToNat (l : List Char) : Nat :=
  l.foldl (fun a c => a * 10 + (c.toNat - '0'.toNat)) 0

/-- Try to match the regex `-(\d+)x(\d+)` at the head of the list;
on success return the two parsed numbers and the rest of the input
after the match. -/
def matchDim : List Char → Option ((Nat × Nat) × List Char)
  | '-' :: rest =>
    let d1 := rest.takeWhile Char.isDigit
    if d1.isEmpty then none
    else
      match rest.dropWhile Char.isDigit with
      | 'x' :: rest2 =>
        let d2 := rest2.takeWhile Char.isDigit
        if d2.isEmpty then none
        else some ((digitsToNat d1, digitsToNat d2), rest2.dropWhile Char.isDigit)
      | _ => none
  | _ => none

/-- Fuelled scan implementing `re.findall(r'-(\d+)x(\d+)', s)`. -/
def findDimsF : Nat → List Char → List (Nat × Nat)
  | 0, _ => []
  | _, [] => []
  | fuel + 1, c :: t =>
    match matchDim (c :: t) with
    | some (p, rest) => p :: findDimsF fuel rest
    | none => findDimsF fuel t

/-- `re.findall(r'-(\d+)x(\d+)', s)` (source line 32). -/
def findDims (l : List Char) : List (Nat × Nat) :=
  findDimsF l.length l

/-- Fuelled scan implementing `re.sub(r'-\d+x\d+', '', s)`. -/
def dimSubF : Nat → List Char → List Char
  | 0, l => l
  | _, [] => []
  | fuel + 1, c :: t =>
    match matchDim (c :: t) with
    | some (_, rest) => dimSubF fuel rest
    | none => c :: dimSubF fuel t

/-- `re.sub(r'-\d+x\d+', '', s)` (source line 60): remove every
non-overlapping dimension-pattern occurrence, scanning left to
right over the original string. -/
def dimSub (l : List Char) : List Char :=
  dimSubF l.length l

/-- Python's substring containment `sub in l`. -/
def hasSubstring (sub : List Char) : List Char → Bool
  | [] => sub.isPrefixOf []
  | c :: t => sub.isPrefixOf (c :: t) || hasSubstring sub t

/-- Case-insensitive containment of `-scaled` or `-rotated`
(source line 28). -/
def containsMarker (name : List Char) : Bool :=
  hasSubstring ("-scaled".toList) (name.map Char.toLower) ||
    hasSubstring ("-rotated".toList) (name.map Char.toLower)

/-- Decision core of `is_thumbnail` after extension stripping
(source lines 27-43). -/
def thumbCore (name : List Char) : Bool :=
  if containsMarker name then true
  else
    match (findDims name).getLast? with
    | none => false
    | some (w, h) => if 1000 ≤ w ∧ 1000 ≤ h then false else true

/-- `is_thumbnail` (source lines 13-43). -/
def is_thumbnail (filename : List Char) : Bool :=
  thumbCore (strip_extensions filename)

/-- `re.sub(r'-(scaled|rotated)$', '', s, flags=re.IGNORECASE)`
(source line 63).  Python's `$` matches at the very end of the
string or just before a final newline; the four mutually exclusive
cases below enumerate both positions for both markers. -/
def scaledStrip (l : List Char) : List Char :=
  let low := l.map Char.toLower
  if ("-scaled".toList).isSuffixOf low then l.take (l.length - 7)
  else if ("-rotated".toList).isSuffixOf low then l.take (l.length - 8)
  else if ("-scaled\n".toList).isSuffixOf low then l.take (l.length - 8) ++ ['\n']
  else if ("-rotated\n".toList).isSuffixOf low then l.take (l.length - 9) ++ ['\n']
  else l

/-- `base_name.replace('_', '-')` acting on one character
(source line 66). -/
def underscoreHyphen (c : Char) : Char :=
  if c = '_' then '-' else c

/-- `re.sub(r'-+', '-', s)` (source line 67): collapse every run of
hyphens to a single hyphen. -/
def collapseHyphens : List Char → List Char
  | [] => []
  | [c] => [c]
  | a :: b :: t =>
    if a = '-' ∧ b = '-' then collapseHyphens (b :: t)
    else a :: collapseHyphens (b :: t)

/-- `s.rstrip('-')` (source line 68): drop the maximal trailing run
of hyphens. -/
def rstripHyphen : List Char → List Char
  | [] => []
  | c :: t =>
    match rstripHyphen t with
    | [] => if c = '-' then [] else [c]
    | r => c :: r

/-- Normalisation stages of `get_base_name` after extension stripping
(source lines 59-70). -/
def baseCore (name : List Char) : List Char :=
  let b1 := dimSub name
  let b2 := scaledStrip b1
  let b3 := b2.map underscoreHyphen
  let b4 := collapseHyphens b3
  rstripHyphen b4

/-- `get_base_name` (source lines 46-70). -/
def get_base_name (filename : List Char) : List Char :=
  baseCore (strip_extensions filename)

/-- Loop-body condition of `find_matching_main_files` (source lines
79-89); `tb` is the already lower-cased thumbnail base and
`(get_base_name filename).map Char.toLower` is the loop's
`file_base`. -/
def matchCond (tb : List Char) (filename : List Char) : Bool :=
  if is_thumbnail filename then false
  else
    ((get_base_name filename).map Char.toLower == tb) ||
      ((get_base_name filename).map Char.toLower).isPrefixOf tb ||
      tb.isPrefixOf ((get_base_name filename).map Char.toLower) ||
      (((get_base_name filename).map Char.toLower).filter (fun c => !(c == '-')) ==
        tb.filter (fun c => !(c == '-')))

/-- `find_matching_main_files` (source lines 73-92). -/
def find_matching_main_files (thumbnail_base : List Char)
    (all_files : List (List Char)) : List (List Char) :=
  all_files.filter (matchCond (thumbnail_base.map Char.toLower))

/-- Image filter of the reconciler (source lines 132-133). -/
def isImageFile (f : List Char) : Bool :=
  lowerEndsWithAny f MAIN_EXTENSIONS

/-- Per-derivative outcome of the reconciler. -/
inductive Decision
  | Delete
  | Retain
deriving DecidableEq

/-- The single decision taken for a thumbnail by both the execution
path (source lines 146-157) and the preview path (source lines
325-331): delete exactly when a matching main file exists. -/
def decisionFor (image_files : List (List Char)) (t : List Char) : Decision :=
  if (find_matching_main_files (get_base_name t) image_files).isEmpty then
    Decision.Retain
  else Decision.Delete

/-- Decision list of `delete_thumbnails_in_folder` over one folder's
file list (source lines 116-159, with the filesystem calls stripped):
restrict to image files, classify, and decide each thumbnail against
the image subset of the same folder. -/
def folderDecisions (files : List (List Char)) : List (List Char × Decision) :=
  let image_files := files.filter isImageFile
  (image_files.filter is_thumbnail).map (fun t => (t, decisionFor image_files t))

/-- Decision list reported by `MediaCleanerGUI.preview_cleanup` for one
folder (source lines 302-331): identical pipeline, but only the first
three thumbnails of a folder are individually reported
(`thumb_files[:3]`, source line 323). -/
def previewDecisions (files : List (List Char)) : List (List Char × Decision) :=
  let image_files := files.filter isImageFile
  ((image_files.filter is_thumbnail).take 3).map (fun t => (t, decisionFor image_files t))

example : is_thumbnail ("photo-500x500-300x300.jpg".toList) = true := by decide
example : is_thumbnail ("photo-300x300-1200x1200.jpg".toList) = false := by decide
example : is_thumbnail ("image-scaled.jpg".toList) = true := by decide
example : is_thumbnail ("product-1200x1600.jpg".toList) = false := by decide
example : get_base_name ("photo_1-100x100.jpg".toList) = "photo-1".toList := by decide
example : get_base_name ("a-scaled\n".toList) = "a\n".toList := by decide
example : get_base_name ("a.webp.jpg".toList) = "a.webp".toList := by decide
example : get_base_name ("a.b.c".toList) = "a.b".toList := by decide
example : find_matching_main_files ("sunset".toList)
    ["sunset.jpg".toList, "sunset-150x150.jpg".toList] = ["sunset.jpg".toList] := by decide
example : find_matching_main_files ("sun-set".toList) ["sunset.jpg".toList]
    = ["sunset.jpg".toList] := by decide
example : find_matching_main_files ("".toList) ["sunset.jpg".toList]
    = ["sunset.jpg".toList] := by decide
example : folderDecisions ["thumb-100x100.jpg".toList]
    = [("thumb-100x100.jpg".toList, Decision.Retain)] := by decide

/-! ### Specification-side definitions

These definitions follow the wording of the specification (not the
source) and are compared against the embedded code. -/

/-- Classification rule as worded in the spec: Derivative on a marker,
otherwise decided by the last dimension pattern, `width < 1000` or
`height < 1000` meaning Derivative; Main when no pattern occurs. -/
def claimDetector (name : List Char) : Bool :=
  if containsMarker name then true
  else
    match (findDims name).getLast? with
    | none => false
    | some (w, h) => decide (w < 1000 ∨ h < 1000)

/-- Suffix removal exactly as worded in the spec: one trailing
`-scaled` or `-rotated`, case-insensitively, anchored at the very end
of the string only. -/
def claimScaledStrip (l : List Char) : List Char :=
  let low := l.map Char.toLower
  if ("-scaled".toList).isSuffixOf low then l.take (l.length - 7)
  else if ("-rotated".toList).isSuffixOf low then l.take (l.length - 8)
  else l

/-- Base identity pipeline as worded in the spec (claim C2), with the
strictly end-anchored suffix removal. -/
def claimBaseIdentity (f : List Char) : List Char :=
  let name := strip_extensions f
  rstripHyphen (collapseHyphens ((claimScaledStrip (dimSub name)).map underscoreHyphen))

/-- Base identity pipeline of claim C2 with the suffix-removal anchor
amended to Python's `$` semantics (end of string, or just before a
final newline). -/
def claimBaseIdentityRe (f : List Char) : List Char :=
  let name := strip_extensions f
  rstripHyphen (collapseHyphens ((scaledStrip (dimSub name)).map underscoreHyphen))

/-- The four match predicates of the spec, in the spec's order: folded
identities equal, derivative identity a prefix of the candidate's,
candidate's identity a prefix of the derivative's, or identities equal
after removing all hyphens. -/
def claimMatches (b : List Char) (c : List Char) : Bool :=
  ((get_base_name c).map Char.toLower == b.map Char.toLower) ||
    (b.map Char.toLower).isPrefixOf ((get_base_name c).map Char.toLower) ||
    ((get_base_name c).map Char.toLower).isPrefixOf (b.map Char.toLower) ||
    (((get_base_name c).map Char.toLower).filter (fun x => !(x == '-')) ==
      (b.map Char.toLower).filter (fun x => !(x == '-')))

/-- No two consecutive hyphens occur in the list. -/
def noDouble : List Char → Bool
  | [] => true
  | [_] => true
  | a :: b :: t => !(a == '-' && b == '-') && noDouble (b :: t)

/-! ### Helper lemmas about the normalisation stages -/

theorem collapse_head (a : Char) (t : List Char) :
    (collapseHyphens (a :: t)).head? = some a := by
  induction t generalizing a with
  | nil => rfl
  | cons b t2 IH =>
    simp only [collapseHyphens]
    by_cases hab : a = '-' ∧ b = '-'
    · rw [if_pos hab, IH b, hab.1, hab.2]
    · rw [if_neg hab]
      rfl

theorem noDouble_tail (a : Char) (t : List Char) :
    noDouble (a :: t) = true → noDouble t = true := by
  cases t with
  | nil => intro _; rfl
  | cons b t2 =>
    simp only [noDouble, Bool.and_eq_true]
    exact fun h => h.2

theorem noDouble_collapse (l : List Char) : noDouble (collapseHyphens l) = true := by
  induction l with
  | nil => rfl
  | cons a t IH =>
    cases t with
    | nil => rfl
    | cons b t2 =>
      simp only [collapseHyphens]
      by_cases hab : a = '-' ∧ b = '-'
      · rw [if_pos hab]
        exact IH
      · rw [if_neg hab]
        have hh := collapse_head b t2
        cases hc : collapseHyphens (b :: t2) with
        | nil => rw [hc] at hh; cases hh
        | cons x r =>
          rw [hc] at hh
          injection hh with hxb
          subst hxb
          rw [hc] at IH
          simp only [noDouble, Bool.and_eq_true]
          refine ⟨?_, IH⟩
          by_cases ha : a = '-'
          · by_cases hb : x = '-'
            · exact absurd ⟨ha, hb⟩ hab
            · simp [hb]
          · simp [ha]

theorem mem_collapse (l : List Char) (c : Char) :
    c ∈ collapseHyphens l → c ∈ l := by
  induction l with
  | nil => exact fun h => h
  | cons a t IH =>
    cases t with
    | nil => exact fun h => h
    | cons b t2 =>
      simp only [collapseHyphens]
      by_cases hab : a = '-' ∧ b = '-'
      · rw [if_pos hab]
        exact fun h => List.mem_cons_of_mem a (IH h)
      · rw [if_neg hab]
        intro h
        rcases List.mem_cons.mp h with h | h
        · exact List.mem_cons.mpr (Or.inl h)
        · exact List.mem_cons_of_mem a (IH h)

theorem collapse_self (l : List Char) (h : noDouble l = true) :
    collapseHyphens l = l := by
  induction l with
  | nil => rfl
  | cons a t IH =>
    cases t with
    | nil => rfl
    | cons b t2 =>
      simp only [noDouble, Bool.and_eq_true] at h
      simp only [collapseHyphens]
      have hab : ¬ (a = '-' ∧ b = '-') := by
        rcases h with ⟨h1, _⟩
        intro ⟨ha, hb⟩
        rw [ha, hb] at h1
        simp at h1
      rw [if_neg hab, IH h.2]

theorem rstrip_head (t : List Char) (x : Char) (r : List Char)
    (h : rstripHyphen t = x :: r) : t.head? = some x := by
  cases t with
  | nil => cases h
  | cons c t2 =>
    simp only [rstripHyphen] at h
    cases hr2 : rstripHyphen t2 with
    | nil =>
      rw [hr2] at h
      by_cases hc : c = '-'
      · rw [if_pos hc] at h
        cases h
      · rw [if_neg hc] at h
        injection h with h1 _
        rw [h1]
        rfl
    | cons y r0 =>
      rw [hr2] at h
      injection h with h1 _
      rw [h1]
      rfl

theorem noDouble_rstrip (l : List Char) (h : noDouble l = true) :
    noDouble (rstripHyphen l) = true := by
  induction l with
  | nil => rfl
  | cons c t IH =>
    simp only [rstripHyphen]
    cases hr : rstripHyphen t with
    | nil =>
      by_cases hc : c = '-'
      · rw [if_pos hc]
        rfl
      · rw [if_neg hc]
        rfl
    | cons x r =>
      show noDouble (c :: x :: r) = true
      cases t with
      | nil => simp [rstripHyphen] at hr
      | cons y t2 =>
        have hyx : y = x := by
          have hh := rstrip_head (y :: t2) x r hr
          simpa using hh
        simp only [noDouble, Bool.and_eq_true] at h
        have htail : noDouble (x :: r) = true := by
          have h2 := IH h.2
          rw [hr] at h2
          exact h2
        simp only [noDouble, Bool.and_eq_true]
        refine ⟨?_, htail⟩
        rw [← hyx]
        exact h.1

theorem rstrip_last (l : List Char) : (rstripHyphen l).getLast? ≠ some '-' := by
  induction l with
  | nil => simp [rstripHyphen]
  | cons c t IH =>
    simp only [rstripHyphen]
    cases hr : rstripHyphen t with
    | nil =>
      by_cases hc : c = '-'
      · rw [if_pos hc]
        simp
      · rw [if_neg hc]
        simp [hc]
    | cons x r =>
      rw [List.getLast?_cons_cons]
      rw [hr] at IH
      exact IH

theorem rstrip_self (l : List Char) (h : l.getLast? ≠ some '-') :
    rstripHyphen l = l := by
  induction l with
  | nil => rfl
  | cons c t IH =>
    simp only [rstripHyphen]
    cases t with
    | nil =>
      have hc : c ≠ '-' := by
        intro hc
        exact h (by rw [hc]; rfl)
      simp only [rstripHyphen, if_neg hc]
    | cons b t2 =>
      rw [List.getLast?_cons_cons] at h
      rw [IH h]

theorem mem_rstrip (l : List Char) (c : Char) :
    c ∈ rstripHyphen l → c ∈ l := by
  induction l with
  | nil => exact fun h => h
  | cons a t IH =>
    simp only [rstripHyphen]
    cases hr : rstripHyphen t with
    | nil =>
      by_cases ha : a = '-'
      · rw [if_pos ha]
        intro h
        cases h
      · rw [if_neg ha]
        intro h
        rcases List.mem_cons.mp h with h | h
        · exact List.mem_cons.mpr (Or.inl h)
        · cases h
    | cons x r =>
      intro h
      rcases List.mem_cons.mp h with h | h
      · exact List.mem_cons.mpr (Or.inl h)
      · rw [← hr] at h
        exact List.mem_cons_of_mem a (IH h)

theorem u_ne_underscore (c : Char) : underscoreHyphen c ≠ '_' := by
  unfold underscoreHyphen
  by_cases h : c = '_'
  · rw [if_pos h]
    decide
  · rw [if_neg h]
    exact h

theorem map_u_self (l : List Char) (h : '_' ∉ l) :
    l.map underscoreHyphen = l := by
  induction l with
  | nil => rfl
  | cons a t IH =>
    have ha : a ≠ '_' := fun hc => h (by rw [hc]; exact List.mem_cons_self _ _)
    have ht : '_' ∉ t := fun hc => h (List.mem_cons_of_mem a hc)
    simp only [List.map_cons, IH ht]
    unfold underscoreHyphen
    rw [if_neg ha]

/-! ### Invariants of `get_base_name` outputs -/

theorem gbn_no_underscore (f : List Char) : '_' ∉ get_base_name f := by
  show '_' ∉ rstripHyphen (collapseHyphens
    ((scaledStrip (dimSub (strip_extensions f))).map underscoreHyphen))
  intro h
  have h2 := mem_collapse _ _ (mem_rstrip _ _ h)
  rcases List.mem_map.mp h2 with ⟨c, _, hc⟩
  exact u_ne_underscore c hc

theorem gbn_noDouble (f : List Char) : noDouble (get_base_name f) = true := by
  show noDouble (rstripHyphen (collapseHyphens
    ((scaledStrip (dimSub (strip_extensions f))).map underscoreHyphen))) = true
  exact noDouble_rstrip _ (noDouble_collapse _)

theorem gbn_last (f : List Char) : (get_base_name f).getLast? ≠ some '-' := by
  show (rstripHyphen (collapseHyphens
    ((scaledStrip (dimSub (strip_extensions f))).map underscoreHyphen))).getLast? ≠ some '-'
  exact rstrip_last _

/-! ### Claim theorems -/

/-- Claim C1 (confirmed): `is_thumbnail` classifies exactly as the
spec's detector rule — marker containment is terminal, otherwise the
last dimension pattern decides with Derivative iff `width < 1000` or
`height < 1000`, and Main when no pattern occurs; in particular
`photo-500x500-300x300.jpg` is a Derivative and
`photo-300x300-1200x1200.jpg` is Main. -/
theorem c1_detector_classification :
    (∀ f, is_thumbnail f = claimDetector (strip_extensions f)) ∧
      is_thumbnail ("photo-500x500-300x300.jpg".toList) = true ∧
      is_thumbnail ("photo-300x300-1200x1200.jpg".toList) = false := by
  refine ⟨fun f => ?_, by decide, by decide⟩
  unfold is_thumbnail thumbCore claimDetector
  cases hm : containsMarker (strip_extensions f)
  · simp only [Bool.false_eq_true, if_false]
    cases hl : (findDims (strip_extensions f)).getLast? with
    | none => rfl
    | some p =>
      rcases p with ⟨w, h⟩
      by_cases hw : 1000 ≤ w ∧ 1000 ≤ h
      · have hd : ¬ (w < 1000 ∨ h < 1000) := by omega
        simp [hw, hd]
      · have hd : w < 1000 ∨ h < 1000 := by omega
        simp [hw, hd]
  · simp

/-- Claim C2 (corrected), counterexample: the spec says the `-scaled` /
`-rotated` removal is anchored at the end only, but the code's regex
`$` also matches just before a final newline: on `"a-scaled\n"` the
code produces `"a\n"` while the spec's pipeline leaves the string
unchanged. -/
theorem c2_base_identity_counterexample :
    get_base_name ("a-scaled\n".toList) = "a\n".toList ∧
      claimBaseIdentity ("a-scaled\n".toList) = "a-scaled\n".toList ∧
      decide ("a\n".toList = "a-scaled\n".toList) = false := by
  refine ⟨by decide, by decide, by decide⟩

/-- Claim C2 (corrected), amended: `get_base_name` equals the spec's
pipeline — strip extensions, remove every dimension-pattern occurrence,
remove one trailing `-scaled`/`-rotated` case-insensitively anchored at
the end of the string **or just before a final newline** (Python `$`),
replace underscores with hyphens, collapse hyphen runs, trim trailing
hyphens — preserving character case throughout. -/
theorem c2_base_identity_pipeline :
    ∀ f, get_base_name f = claimBaseIdentityRe f := fun _ => rfl

/-- Claim C3 (confirmed): a candidate is in the match set iff it is in
the candidate list, is not classified Derivative, and satisfies one of
the spec's four match predicates on the case-folded identities; the
result is a sublist of the candidates (folder isolation) and the empty
candidate list yields the empty match set. -/
theorem c3_matcher_characterisation :
    ∀ b cs c,
      (c ∈ find_matching_main_files b cs ↔
        c ∈ cs ∧ is_thumbnail c = false ∧ claimMatches b c = true) ∧
      List.Sublist (find_matching_main_files b cs) cs ∧
      find_matching_main_files b [] = [] := by
  intro b cs c
  refine ⟨?_, List.filter_sublist _, rfl⟩
  rw [find_matching_main_files, List.mem_filter]
  have hcond : matchCond (b.map Char.toLower) c = true ↔
      is_thumbnail c = false ∧ claimMatches b c = true := by
    unfold matchCond claimMatches
    cases ht : is_thumbnail c
    · simp only [Bool.false_eq_true, if_false, true_and]
      cases h1 : ((get_base_name c).map Char.toLower == b.map Char.toLower) <;>
        cases h2 : ((get_base_name c).map Char.toLower).isPrefixOf (b.map Char.toLower) <;>
        cases h3 : (b.map Char.toLower).isPrefixOf ((get_base_name c).map Char.toLower) <;>
        simp
    · simp
  rw [hcond]

/-- Membership in a list tagged by a decision function. -/
theorem mem_map_pair (L : List (List Char)) (g : List Char → Decision)
    (t : List Char) (d : Decision) :
    ((t, d) ∈ L.map (fun x => (x, g x))) ↔ (t ∈ L ∧ d = g t) := by
  simp only [List.mem_map, Prod.mk.injEq]
  constructor
  · rintro ⟨a, haL, rfl, rfl⟩
    exact ⟨haL, rfl⟩
  · rintro ⟨ht, rfl⟩
    exact ⟨t, ht, rfl, rfl⟩

/-- Unfolding of membership in `folderDecisions`. -/
theorem folderDecisions_mem (files : List (List Char)) (t : List Char) (d : Decision) :
    ((t, d) ∈ folderDecisions files) ↔
      (t ∈ files ∧ isImageFile t = true ∧ is_thumbnail t = true ∧
        d = decisionFor (files.filter isImageFile) t) := by
  simp only [folderDecisions]
  rw [mem_map_pair, List.mem_filter, List.mem_filter]
  tauto

/-- `decisionFor` deletes exactly on a non-empty match set. -/
theorem decisionFor_delete (imgs : List (List Char)) (t : List Char) :
    (Decision.Delete = decisionFor imgs t) ↔
      (find_matching_main_files (get_base_name t) imgs).isEmpty = false := by
  unfold decisionFor
  cases h : (find_matching_main_files (get_base_name t) imgs).isEmpty <;> simp [h]

/-- `decisionFor` retains exactly on an empty match set. -/
theorem decisionFor_retain (imgs : List (List Char)) (t : List Char) :
    (Decision.Retain = decisionFor imgs t) ↔
      (find_matching_main_files (get_base_name t) imgs).isEmpty = true := by
  unfold decisionFor
  cases h : (find_matching_main_files (get_base_name t) imgs).isEmpty <;> simp [h]

/-- Claim C4 (confirmed): over one folder's file list the reconciler
decides only image files classified Derivative, emitting `Delete`
exactly when the matcher finds a main among the folder's image subset
and `Retain` when the match set is empty; non-image files never enter
candidacy (candidates are `files.filter isImageFile`), and the folder
containing only `thumb-100x100.jpg` yields `Retain` for it. -/
theorem c4_reconciler_decisions :
    (∀ files t,
      (((t, Decision.Delete) ∈ folderDecisions files) ↔
        (t ∈ files ∧ isImageFile t = true ∧ is_thumbnail t = true ∧
          (find_matching_main_files (get_base_name t)
            (files.filter isImageFile)).isEmpty = false)) ∧
      (((t, Decision.Retain) ∈ folderDecisions files) ↔
        (t ∈ files ∧ isImageFile t = true ∧ is_thumbnail t = true ∧
          (find_matching_main_files (get_base_name t)
            (files.filter isImageFile)).isEmpty = true))) ∧
    folderDecisions ["thumb-100x100.jpg".toList] =
      [("thumb-100x100.jpg".toList, Decision.Retain)] := by
  refine ⟨fun files t => ⟨?_, ?_⟩, by decide⟩
  · rw [folderDecisions_mem, decisionFor_delete]
  · rw [folderDecisions_mem, decisionFor_retain]

/-- Claim C5 (corrected), counterexample: preview reports at most the
first three thumbnails of a folder (`thumb_files[:3]`), so in a folder
with four deletable thumbnails the execution path deletes
`pic-400x400.jpg` while preview never reports a decision for it. -/
theorem c5_preview_counterexample :
    (("pic-400x400.jpg".toList, Decision.Delete) ∈
        folderDecisions ["pic.jpg".toList, "pic-100x100.jpg".toList,
          "pic-200x200.jpg".toList, "pic-300x300.jpg".toList,
          "pic-400x400.jpg".toList]) ∧
      decide (("pic-400x400.jpg".toList, Decision.Delete) ∈
        previewDecisions ["pic.jpg".toList, "pic-100x100.jpg".toList,
          "pic-200x200.jpg".toList, "pic-300x300.jpg".toList,
          "pic-400x400.jpg".toList]) = false ∧
      (folderDecisions ["pic.jpg".toList, "pic-100x100.jpg".toList,
        "pic-200x200.jpg".toList, "pic-300x300.jpg".toList,
        "pic-400x400.jpg".toList]).length = 4 ∧
      (previewDecisions ["pic.jpg".toList, "pic-100x100.jpg".toList,
        "pic-200x200.jpg".toList, "pic-300x300.jpg".toList,
        "pic-400x400.jpg".toList]).length = 3 := by
  refine ⟨by decide, by decide, by decide, by decide⟩

/-- Claim C5 (corrected), amended: preview and execution share the
same per-derivative decision function (`decisionFor`) over the same
image subset, so the decisions preview reports are exactly the first
three of the execution path's decisions for that folder; derivatives
beyond the third are not individually reported by preview. -/
theorem c5_preview_prefix_of_execution :
    ∀ files, previewDecisions files = (folderDecisions files).take 3 := by
  intro files
  simp only [previewDecisions, folderDecisions]
  rw [List.map_take]

/-- Claim C7 (corrected), counterexample: the spec says a secondary
extension from the recognized-extension list (which contains `.webp`)
is stripped, but the code's double-extension check covers only
`.jpg`, `.jpeg`, `.png`: for `a.webp.jpg` the name after the primary
strip is `a.webp`, which ends in a recognized extension, yet
`get_base_name` keeps it, instead of the `a` the claim requires. -/
theorem c7_double_extension_counterexample :
    lowerEndsWithAny (splitextRoot ("a.webp.jpg".toList)) MAIN_EXTENSIONS = true ∧
      get_base_name ("a.webp.jpg".toList) = "a.webp".toList ∧
      baseCore (splitextRoot (splitextRoot ("a.webp.jpg".toList))) = "a".toList ∧
      decide ("a.webp".toList = "a".toList) = false := by
  refine ⟨by decide, by decide, by decide, by decide⟩

/-- Claim C7 (corrected), amended: both the detector and the
extractor strip a secondary extension before any marker or
dimension-pattern processing, but only when it is `.jpg`, `.jpeg` or
`.png` (case-insensitively); secondary `.webp`, `.gif`, `.bmp`,
`.tiff`, `.tif` extensions are not stripped. -/
theorem c7_double_extension_amended :
    (∀ f, strip_extensions f =
        (if lowerEndsWithAny (splitextRoot f) double_extensions then
          splitextRoot (splitextRoot f) else splitextRoot f) ∧
      is_thumbnail f = thumbCore (strip_extensions f) ∧
      get_base_name f = baseCore (strip_extensions f)) ∧
    get_base_name ("a.jpg.png".toList) = "a".toList ∧
    get_base_name ("a.JPeG.jpg".toList) = "a".toList ∧
    get_base_name ("a.webp.jpg".toList) = "a.webp".toList ∧
    get_base_name ("a.tif.jpg".toList) = "a.tif".toList := by
  refine ⟨fun f => ⟨rfl, rfl, rfl⟩, by decide, by decide, by decide, by decide⟩

/-- Claim C9 (confirmed): the detector and the extractor are embedded
as total Lean functions mirroring every code path, so every string —
including the empty string, names without an extension and names with
an unmatched pattern — yields a defined boolean classification and a
defined identity, and equal inputs yield equal results by
functionality; the edge inputs evaluate concretely as shown. -/
theorem c9_total_deterministic :
    (∀ f, is_thumbnail f = true ∨ is_thumbnail f = false) ∧
      (∀ f, ∃ b, get_base_name f = b) ∧
      is_thumbnail ("".toList) = false ∧
      get_base_name ("".toList) = "".toList ∧
      is_thumbnail ("noext".toList) = false ∧
      get_base_name ("noext".toList) = "noext".toList ∧
      is_thumbnail ("a-12x.jpg".toList) = false ∧
      get_base_name ("a-12x.jpg".toList) = "a-12x".toList ∧
      get_base_name ("-".toList) = "".toList := by
  refine ⟨fun f => ?_, fun f => ⟨_, rfl⟩, by decide, by decide, by decide,
    by decide, by decide, by decide, by decide⟩
  cases is_thumbnail f <;> simp

/-- Claim C6 (corrected), counterexample: the spec says an
empty-base-identity derivative matches only candidates whose identity
is also empty, but the empty string is a prefix of every candidate
identity, so `find_matching_main_files` with an empty base matches
every Main candidate: `sunset.jpg` is matched although its identity
`sunset` is non-empty. -/
theorem c6_empty_base_counterexample :
    find_matching_main_files [] ["sunset.jpg".toList] = ["sunset.jpg".toList] ∧
      (get_base_name ("sunset.jpg".toList)).isEmpty = false := by
  refine ⟨by decide, by decide⟩

/-- Claim C6 (corrected), amended: with an empty derivative base
identity, the matcher returns exactly the candidates the detector
classifies as Main — every such candidate, whatever its identity,
because the empty identity is a prefix of every candidate identity. -/
theorem c6_empty_base_matches_all_mains :
    ∀ cs c, c ∈ find_matching_main_files [] cs ↔ c ∈ cs ∧ is_thumbnail c = false := by
  intro cs c
  rw [find_matching_main_files, List.mem_filter]
  have hcond : matchCond (([] : List Char).map Char.toLower) c = (!is_thumbnail c) := by
    unfold matchCond
    cases ht : is_thumbnail c
    · simp [List.isPrefixOf]
    · simp
  rw [hcond]
  simp

/-- Claim C10 (confirmed): every output of `get_base_name` contains no
underscore (all are replaced by hyphens), contains no two consecutive
hyphens (runs are collapsed), and does not end with a hyphen (trailing
hyphens are stripped). -/
theorem c10_output_shape :
    ∀ f, decide ('_' ∈ get_base_name f) = false ∧
      noDouble (get_base_name f) = true ∧
      ((get_base_name f).getLast? == some '-') = false := by
  intro f
  refine ⟨?_, gbn_noDouble f, ?_⟩
  · simpa using gbn_no_underscore f
  · simpa using gbn_last f

/-- Claim C8 (corrected), counterexample: `get_base_name` is not
idempotent on all inputs — its output may retain a dot, which the next
application strips as an extension: `get_base_name "a.b.c" = "a.b"`
but `get_base_name "a.b" = "a"`. -/
theorem c8_idempotence_counterexample :
    get_base_name ("a.b.c".toList) = "a.b".toList ∧
      get_base_name ("a.b".toList) = "a".toList ∧
      decide (get_base_name (get_base_name ("a.b.c".toList)) =
        get_base_name ("a.b.c".toList)) = false := by
  refine ⟨by decide, by decide, by decide⟩

/-- Claim C8 (corrected), amended: `get_base_name` is idempotent on
every output that is already canonical — whenever the extension
stripping, the dimension-pattern removal and the `-scaled`/`-rotated`
suffix removal all leave `get_base_name f` unchanged, a second
application returns it unchanged (the underscore, hyphen-collapse and
trailing-hyphen stages always fix outputs of `get_base_name`). -/
theorem c8_idempotent_on_canonical (f : List Char)
    (h1 : strip_extensions (get_base_name f) = get_base_name f)
    (h2 : dimSub (get_base_name f) = get_base_name f)
    (h3 : scaledStrip (get_base_name f) = get_base_name f) :
    get_base_name (get_base_name f) = get_base_name f := by
  have hu : (get_base_name f).map underscoreHyphen = get_base_name f :=
    map_u_self _ (gbn_no_underscore f)
  have hc : collapseHyphens (get_base_name f) = get_base_name f :=
    collapse_self _ (gbn_noDouble f)
  have hr : rstripHyphen (get_base_name f) = get_base_name f :=
    rstrip_self _ (gbn_last f)
  calc get_base_name (get_base_name f)
      = baseCore (strip_extensions (get_base_name f)) := rfl
    _ = rstripHyphen (collapseHyphens
          ((scaledStrip (dimSub (strip_extensions (get_base_name f)))).map
            underscoreHyphen)) := rfl
    _ = get_base_name f := by rw [h1, h2, h3, hu, hc, hr]

/-- Witness for `c8_idempotent_on_canonical`: the hypotheses hold at
`photo-100x100.jpg`, whose base identity is `photo`. -/
theorem c8_idempotent_on_canonical_witness :
    strip_extensions (get_base_name ("photo-100x100.jpg".toList)) =
        get_base_name ("photo-100x100.jpg".toList) ∧
      dimSub (get_base_name ("photo-100x100.jpg".toList)) =
        get_base_name ("photo-100x100.jpg".toList) ∧
      scaledStrip (get_base_name ("photo-100x100.jpg".toList)) =
        get_base_name ("photo-100x100.jpg".toList) ∧
      get_base_name (get_base_name ("photo-100x100.jpg".toList)) =
        get_base_name ("photo-100x100.jpg".toList) :=
  ⟨by decide, by decide, by decide,
    c8_idempotent_on_canonical ("photo-100x100.jpg".toList)
      (by decide) (by decide) (by decide)⟩

end PyWPMedia
